import Mathlib

/-!
Verification development for the renderer-mem repository: a memory-based
Kubernetes-manifest renderer.  The definitions below are a shallow embedding
of the Go sources (pkg/mem_option.go, the rendering pipeline in mem.go in its
two historical variants, and the engine collaborator functions the pipeline
calls).  Pure Go functions become Lean functions; the fallible pipeline steps
return Except values; Go maps of strings are modelled as association lists.
-/

namespace Mem

/-! ## The document value model

unstructured.Unstructured is an opaque key/value tree.  Following the spec's
data model (section 3) a Document carries a kind discriminator, an optional
string-to-string metadata-annotations mapping (Go's nil map is modelled as
none, a present map as some list), and an arbitrary body tree; a nil/absent
body is the single invalid state. -/

mutual

/-- One node of an arbitrary key/value content tree (the JSON-like payload of
an unstructured object). -/
inductive Val : Type where
  | vnull : Val
  | vbool : Bool → Val
  | vint : Int → Val
  | vstr : String → Val
  | varr : Elems → Val
  | vobj : Fields → Val

/-- A sequence of array elements of a content tree. -/
inductive Elems : Type where
  | nil : Elems
  | cons : Val → Elems → Elems

/-- A sequence of key/value fields of an object node of a content tree. -/
inductive Fields : Type where
  | nil : Fields
  | cons : String → Val → Fields → Fields

end

mutual

/-- Canonical textual form of a content tree node, used by the content
digest.  Determinism is all that matters here. -/
def Val.serialize : Val → String
  | .vnull => "null"
  | .vbool b => if b then "true" else "false"
  | .vint n => toString n
  | .vstr s => "\"" ++ s ++ "\""
  | .varr items => "[" ++ Elems.serialize items ++ "]"
  | .vobj fields => "\x7b" ++ Fields.serialize fields ++ "\x7d"

/-- Canonical textual form of array elements. -/
def Elems.serialize : Elems → String
  | .nil => ""
  | .cons v tl => Val.serialize v ++ "," ++ Elems.serialize tl

/-- Canonical textual form of object fields. -/
def Fields.serialize : Fields → String
  | .nil => ""
  | .cons k v tl => "\"" ++ k ++ "\":" ++ Val.serialize v ++ "," ++ Fields.serialize tl

end

/-- A Document: one unit of output of the renderer, mirroring
unstructured.Unstructured as described by the spec's data model.  The Go
value with a nil Object map is the Document with body none. -/
structure Document : Type where
  kind : String
  annotations : Option (List (String × String))
  body : Option Val

/-- The renderer type identifier: constant rendererType in mem.go. -/
def rendererType : String := "mem"

/-- Reserved metadata key marking the originating renderer type
(types.AnnotationSourceType of the engine collaborator; the exact string is
irrelevant, only its identity). -/
def AnnotationSourceType : String := "manifest-kit/source-type"

/-- Reserved metadata key holding the content digest
(types.AnnotationContentHash of the engine collaborator). -/
def AnnotationContentHash : String := "manifest-kit/content-hash"

/-- Set or replace a key in a string map, modelling a Go map assignment. -/
def setKV : List (String × String) → String → String → List (String × String)
  | [], k, v => [(k, v)]
  | (k', v') :: tl, k, v => if k' = k then (k, v) :: tl else (k', v') :: setKV tl k v

/-- Look a key up in a Document's annotations (GetAnnotations followed by a
map read). -/
def annLookup (d : Document) (k : String) : Option String :=
  d.annotations.bind fun l => l.lookup k

/-- The provenance-annotation step of Process (mem.go): read the annotations,
create the mapping when absent, set the reserved source-type key, write the
mapping back.  No other key is disturbed. -/
def annotateSource (d : Document) : Document :=
  let anns := match d.annotations with
    | none => []
    | some a => a
  { d with annotations := some (setKV anns AnnotationSourceType rendererType) }

/-- Whether a metadata key is one of the reserved keys this component
itself writes. -/
def reservedKey (k : String) : Bool :=
  k = AnnotationSourceType || k = AnnotationContentHash

/-- Remove the reserved keys this component writes from an annotations map. -/
def stripReserved (l : List (String × String)) : List (String × String) :=
  l.filter fun kv => !reservedKey kv.1

/-- Canonicalize an annotations mapping for digest purposes: drop the
reserved keys and identify the empty mapping with the absent one. -/
def normalizeAnns : Option (List (String × String)) → Option (List (String × String))
  | none => none
  | some l =>
    let s := stripReserved l
    if s.isEmpty then none else some s

/-- The canonical content of a Document: its content with this component's
own reserved metadata keys removed. -/
def canonicalContent (d : Document) : Document :=
  { d with annotations := normalizeAnns d.annotations }

/-- Canonical textual form of a Document, input of the digest. -/
def Document.serialize (d : Document) : String :=
  let anns := match d.annotations with
    | none => "nil"
    | some l => l.foldl (fun acc kv => acc ++ "\"" ++ kv.1 ++ "\"=\"" ++ kv.2 ++ "\";") ""
  let body := match d.body with
    | none => "nil"
    | some v => v.serialize
  "kind:" ++ d.kind ++ "|anns:" ++ anns ++ "|body:" ++ body

/-- A lowercase hexadecimal digit. -/
def hexDigit (n : Nat) : Char :=
  if n < 10 then Char.ofNat (48 + n) else Char.ofNat (87 + n)

/-- Print a natural number as exactly 64 lowercase hexadecimal characters
(its value modulo 2 to the 256). -/
def toHex64 (n : Nat) : String :=
  String.mk ((List.range 64).map fun i => hexDigit ((n / 16 ^ (63 - i)) % 16))

/-- A deterministic 256-bit digest of a string, standing in for SHA-256:
only determinism and the output format matter for the verified properties. -/
def strHash (s : String) : Nat :=
  s.foldl (fun acc c => (acc * 131 + c.toNat) % 2 ^ 256) 5381

/-- The content digest of a Document: a pure function of its canonical
content, formatted as sha256: followed by 64 lowercase hex characters. -/
def digestOf (d : Document) : String :=
  "sha256:" ++ toHex64 (strHash (canonicalContent d).serialize)

/-- Modelled from the spec: types.SetContentHash of the engine collaborator
is absent from the sources; per the spec (sections 4.3d and 6) it stores,
under the reserved metadata key, a digest that is a pure function of the
Document's canonical content, which excludes the reserved keys this
component itself writes. -/
def SetContentHash (d : Document) : Document :=
  let anns := d.annotations.getD []
  { d with annotations := some (setKV anns AnnotationContentHash (digestOf d)) }

/-! ## Injected stage capabilities

Filters, transformers and post-renderers all share the shape sequence-in,
sequence-out with a possible error (types.Filter, types.Transformer,
types.PostRenderer of the engine); a source selector is a predicate on one
Source.  The render-time context is never inspected by this component and is
elided. -/

/-- A renderer-level filter stage (types.Filter). -/
abbrev Filter := List Document → Except String (List Document)

/-- A renderer-level transformer stage (types.Transformer). -/
abbrev Transformer := List Document → Except String (List Document)

/-- A post-renderer stage (types.PostRenderer). -/
abbrev PostRenderer := List Document → Except String (List Document)

/-- A memory Source (struct Source of mem.go, richer variant): a batch of
pre-constructed Documents plus source-scoped post-renderers. -/
structure Source : Type where
  Objects : List Document
  PostRenderers : List PostRenderer := []

/-- A source-selection predicate (types.SourceSelector). -/
abbrev SourceSelector := Source → Except String Bool

/-! ## Configuration options (pkg/mem_option.go) -/

/-- Struct RendererOptions of mem_option.go: the accumulated renderer
configuration, also usable itself as a struct-based option. -/
structure RendererOptions : Type where
  Filters : List Filter := []
  Transformers : List Transformer := []
  PostRenderers : List PostRenderer := []
  SourceSelectors : List SourceSelector := []
  SourceAnnotations : Bool := false
  ContentHash : Bool := false

/-- RendererOptions.ApplyTo of mem_option.go: Filters and Transformers are
written wholesale, PostRenderers and SourceSelectors are appended to the
target's, and both boolean toggles are written. -/
def RendererOptions.ApplyTo (opts target : RendererOptions) : RendererOptions :=
  { target with
    Filters := opts.Filters
    Transformers := opts.Transformers
    PostRenderers := target.PostRenderers ++ opts.PostRenderers
    SourceSelectors := target.SourceSelectors ++ opts.SourceSelectors
    SourceAnnotations := opts.SourceAnnotations
    ContentHash := opts.ContentHash }

/-- A construction option: either a struct-based RendererOptions value or
one of the functional With* options of mem_option.go, one constructor per
source function. -/
inductive ROption : Type where
  | structOpts (o : RendererOptions)
  | withFilter (f : Filter)
  | withTransformer (t : Transformer)
  | withPostRenderer (p : PostRenderer)
  | withSourceSelector (s : SourceSelector)
  | withSourceAnnotations (enabled : Bool)
  | withContentHash (enabled : Bool)

/-- The ApplyTo action of one option on the accumulated configuration; each
arm transcribes the corresponding closure of mem_option.go. -/
def applyOpt (target : RendererOptions) : ROption → RendererOptions
  | .structOpts o => o.ApplyTo target
  | .withFilter f => { target with Filters := target.Filters ++ [f] }
  | .withTransformer t => { target with Transformers := target.Transformers ++ [t] }
  | .withPostRenderer p => { target with PostRenderers := target.PostRenderers ++ [p] }
  | .withSourceSelector s => { target with SourceSelectors := target.SourceSelectors ++ [s] }
  | .withSourceAnnotations b => { target with SourceAnnotations := b }
  | .withContentHash b => { target with ContentHash := b }

/-- The default configuration New starts from: empty filter and transformer
lists and content hashing enabled. -/
def defaultOptions : RendererOptions :=
  { Filters := [], Transformers := [], ContentHash := true }

/-- The option-application loop of New: fold every option over the
defaults, in order. -/
def buildOptions (opts : List ROption) : RendererOptions :=
  opts.foldl applyOpt defaultOptions

/-! ## Construction (New of mem.go) -/

/-- Construction-time error: InvalidSource, naming the Source Group index
and the offending Document index (New wraps the holder's validation error,
which names the document, with the source index). -/
inductive ConstructError : Type where
  | invalidSource (groupIdx docIdx : Nat)
deriving DecidableEq

/-- Modelled from the spec: sourceHolder.Validate is absent from the
sources; per the spec (section 4.1) a Document with a nil/absent body is the
only invalid state and the error names the offending Document index.  This
returns the first invalid index, scanning in order. -/
def firstInvalid : List Document → Option Nat
  | [] => none
  | d :: rest =>
    match d.body with
    | none => some 0
    | some _ => (firstInvalid rest).map (· + 1)

/-- The validation loop of New: find the first invalid group, by ascending
index, together with its first invalid document index. -/
def validateGroups : Nat → List Source → Option (Nat × Nat)
  | _, [] => none
  | i, src :: rest =>
    match firstInvalid src.Objects with
    | some j => some (i, j)
    | none => validateGroups (i + 1) rest

/-- The renderer instance: the stored Source Groups and the accumulated
configuration (struct Renderer of mem.go). -/
structure Renderer : Type where
  inputs : List Source
  opts : RendererOptions

/-- New of mem.go: apply the options to the defaults, then wrap and
validate every source in order, failing fast with InvalidSource on the
first invalid group; on success the instance stores the inputs and the
built configuration. -/
def New (inputs : List Source) (opts : List ROption) : Except ConstructError Renderer :=
  match validateGroups 0 inputs with
  | some ij => .error (.invalidSource ij.1 ij.2)
  | none => .ok { inputs := inputs, opts := buildOptions opts }

/-! ## The render operation (Process of mem.go, richer variant) -/

/-- A render-time failure, one constructor per error-wrapping site of the
two Process variants. -/
inductive ProcessError : Type where
  | sourceSelectorError (e : String)
  | sourcePostRenderError (e : String)
  | renderPostRenderError (e : String)
  | applyError (e : String)
deriving DecidableEq

/-- Modelled from the spec: pipeline.ApplySourceSelectors of the engine
collaborator is absent from the sources; per the spec (section 4.3a) the
selectors are evaluated in order with short-circuit all-must-accept
semantics — the first false result decides, and a selector's own error is
propagated. -/
def ApplySourceSelectors (src : Source) : List SourceSelector → Except String Bool
  | [] => .ok true
  | s :: rest =>
    match s src with
    | .error e => .error e
    | .ok false => .ok false
    | .ok true => ApplySourceSelectors src rest

/-- Modelled from the spec: pipeline.ApplyPostRenderers of the engine
collaborator is absent from the sources; per the spec each stage is applied
in order to the previous stage's output and a stage failure aborts. -/
def ApplyPostRenderers (objs : List Document) : List PostRenderer → Except String (List Document)
  | [] => .ok objs
  | p :: rest =>
    match p objs with
    | .error e => .error e
    | .ok out => ApplyPostRenderers out rest

/-- Modelled from the spec: types.BuildPostRendererChain of the engine
collaborator is absent from the sources; per the spec (section 4.3 step 3)
the renderer-level chain is the filters, then the transformers, then the
post-renderers, in that fixed relative order. -/
def BuildPostRendererChain (fs : List Filter) (ts : List Transformer)
    (ps : List PostRenderer) : List PostRenderer :=
  fs ++ ts ++ ps

/-- The per-source copy, annotate and fingerprint steps of Process: deep
copies are value reads here; the annotation loop then the content-hash loop
of mem.go become two maps. -/
def perSourceDocs (opts : RendererOptions) (src : Source) : List Document :=
  let copied := src.Objects.map fun obj =>
    if opts.SourceAnnotations then annotateSource obj else obj
  if opts.ContentHash then copied.map SetContentHash else copied

/-- The source loop of Process (richer variant): gate each group through
the selector chain (an error aborts, tagged as a source-selector error; a
false skips the group entirely), run the per-source steps and the group's
own post-renderers (an error aborts, tagged as a source post-render error),
and concatenate in order. -/
def processGroups (opts : RendererOptions) : List Source → Except ProcessError (List Document)
  | [] => .ok []
  | src :: rest =>
    match ApplySourceSelectors src opts.SourceSelectors with
    | .error e => .error (.sourceSelectorError e)
    | .ok false => processGroups opts rest
    | .ok true =>
      match ApplyPostRenderers (perSourceDocs opts src) src.PostRenderers with
      | .error e => .error (.sourcePostRenderError e)
      | .ok objs =>
        match processGroups opts rest with
        | .error e => .error e
        | .ok restObjs => .ok (objs ++ restObjs)

/-- Process of mem.go (richer variant): run the source loop, then apply the
renderer-level chain built from the configured filters, transformers and
post-renderers to the merged sequence; a chain failure is tagged as a
renderer post-render error. -/
def Process (r : Renderer) : Except ProcessError (List Document) :=
  match processGroups r.opts r.inputs with
  | .error e => .error e
  | .ok merged =>
    match ApplyPostRenderers merged
        (BuildPostRendererChain r.opts.Filters r.opts.Transformers r.opts.PostRenderers) with
    | .error e => .error (.renderPostRenderError e)
    | .ok out => .ok out

/-! ## The superseded render operation (Process of mem.go, simpler variant) -/

/-- Modelled from the spec: pipeline.Apply of the engine collaborator is
absent from the sources; it applies the filters, then the transformers, in
order. -/
def ApplyFT (objs : List Document) (fs : List Filter) (ts : List Transformer) :
    Except String (List Document) :=
  ApplyPostRenderers objs (fs ++ ts)

/-- Process of the simpler, superseded variant of mem.go: copy and annotate
every document of every input, fingerprint the merged sequence, then apply
the filters and transformers through pipeline.Apply, wrapping a failure as
a single apply error.  Source selectors and post-renderers do not exist in
this variant and are ignored. -/
def ProcessOld (r : Renderer) : Except ProcessError (List Document) :=
  let allObjects :=
    (r.inputs.map fun src =>
      src.Objects.map fun obj =>
        if r.opts.SourceAnnotations then annotateSource obj else obj).flatten
  let allObjects := if r.opts.ContentHash then allObjects.map SetContentHash else allObjects
  match ApplyFT allObjects r.opts.Filters r.opts.Transformers with
  | .error e => .error (.applyError e)
  | .ok out => .ok out

/-! ## The store model of construction-time aliasing

Go's New stores the caller's Source structs: their Objects slices and the
maps inside each Unstructured alias the caller's documents — nothing is
copied at construction time (New of mem.go performs no DeepCopy).  Process
deep-copies each document when it runs and mutates only those copies.  To
make that observable, documents held by the caller live in a store and a
constructed renderer holds addresses into it; ProcessRef reads the current
store values, runs the pure pipeline on them, and returns the store as the
call leaves it — unchanged, because every mutation in the source targets a
DeepCopy-produced object. -/

/-- A store of caller-held documents, addressed by position. -/
abbrev Store := List Document

/-- A stored source: addresses of the caller's documents plus the group's
post-renderers. -/
structure SourceRef : Type where
  objects : List Nat
  postRenderers : List PostRenderer := []

/-- A renderer as constructed: it retains addresses of the caller's
documents, not copies. -/
structure RendererRef : Type where
  inputs : List SourceRef
  opts : RendererOptions

/-- Read one document out of the store. -/
def readDoc (store : Store) (a : Nat) : Document :=
  (store.get? a).getD { kind := "", annotations := none, body := none }

/-- The Source a stored reference denotes under the current store. -/
def derefSource (store : Store) (sref : SourceRef) : Source :=
  { Objects := sref.objects.map (readDoc store), PostRenderers := sref.postRenderers }

/-- Process against the store: the documents are read at call time (the
deep copy of the source), the pure pipeline runs on the values, and the
store is returned as the call leaves it. -/
def ProcessRef (store : Store) (r : RendererRef) :
    Store × Except ProcessError (List Document) :=
  (store, Process { inputs := r.inputs.map (derefSource store), opts := r.opts })

/-! ## Helper notions for the theorems -/

/-- The per-document composition of the copy, annotate and fingerprint
steps, the pointwise form of perSourceDocs. -/
def perDocStep (opts : RendererOptions) (d : Document) : Document :=
  let c := if opts.SourceAnnotations then annotateSource d else d
  if opts.ContentHash then SetContentHash c else c

/-- The post-renderers one option contributes. -/
def postContrib : ROption → List PostRenderer
  | .structOpts o => o.PostRenderers
  | .withPostRenderer p => [p]
  | _ => []

/-- The source selectors one option contributes. -/
def selContrib : ROption → List SourceSelector
  | .structOpts o => o.SourceSelectors
  | .withSourceSelector s => [s]
  | _ => []

/-- The identity filter, used as a concrete stage in witnesses. -/
def fId : Filter := fun docs => .ok docs

/-- A concrete struct-based option carrying one filter. -/
def oG : RendererOptions := { Filters := [fId] }

lemma applyOpt_postRenderers (target : RendererOptions) (o : ROption) :
    (applyOpt target o).PostRenderers = target.PostRenderers ++ postContrib o := by
  cases o <;> simp [applyOpt, postContrib, RendererOptions.ApplyTo]

lemma applyOpt_sourceSelectors (target : RendererOptions) (o : ROption) :
    (applyOpt target o).SourceSelectors = target.SourceSelectors ++ selContrib o := by
  cases o <;> simp [applyOpt, selContrib, RendererOptions.ApplyTo]

lemma foldl_applyOpt_postRenderers (opts : List ROption) (target : RendererOptions) :
    (opts.foldl applyOpt target).PostRenderers =
      target.PostRenderers ++ (opts.map postContrib).flatten := by
  induction opts generalizing target with
  | nil => simp
  | cons o rest ih =>
    simp only [List.foldl_cons, List.map_cons, List.flatten_cons]
    rw [ih, applyOpt_postRenderers, List.append_assoc]

lemma foldl_applyOpt_sourceSelectors (opts : List ROption) (target : RendererOptions) :
    (opts.foldl applyOpt target).SourceSelectors =
      target.SourceSelectors ++ (opts.map selContrib).flatten := by
  induction opts generalizing target with
  | nil => simp
  | cons o rest ih =>
    simp only [List.foldl_cons, List.map_cons, List.flatten_cons]
    rw [ih, applyOpt_sourceSelectors, List.append_assoc]

/-! ## C3 — overwrite versus accumulate across the option kinds -/

/-- C3 (counterexample): the claim says the resulting filter list equals
exactly the list set by the last-applied option that sets it, replaced
wholesale.  Applying the struct option oG (one filter) and then
WithFilter fId produces a two-element filter list, while either candidate
last-setting option sets a one-element list — the list is appended to, not
replaced wholesale. -/
theorem withFilter_appends_not_replaces :
    (buildOptions [.structOpts oG, .withFilter fId]).Filters.length = 2 ∧
    oG.Filters.length = 1 ∧
    (buildOptions [.withFilter fId]).Filters.length = 1 :=
  ⟨rfl, rfl, rfl⟩

/-- C3 (amended): a struct-based option replaces the filter and transformer
lists wholesale regardless of what preceded it, the functional
WithFilter/WithTransformer options append one element each, and the
post-renderer and source-selector lists accumulate the contributions of all
applied options in application order. -/
theorem option_fields_replace_and_accumulate :
    (∀ (pre : List ROption) (o : RendererOptions),
      (buildOptions (pre ++ [.structOpts o])).Filters = o.Filters ∧
      (buildOptions (pre ++ [.structOpts o])).Transformers = o.Transformers) ∧
    (∀ (target : RendererOptions) (f : Filter),
      (applyOpt target (.withFilter f)).Filters = target.Filters ++ [f]) ∧
    (∀ (target : RendererOptions) (t : Transformer),
      (applyOpt target (.withTransformer t)).Transformers = target.Transformers ++ [t]) ∧
    (∀ opts : List ROption,
      (buildOptions opts).PostRenderers = (opts.map postContrib).flatten ∧
      (buildOptions opts).SourceSelectors = (opts.map selContrib).flatten) := by
  refine ⟨?_, ?_, ?_, ?_⟩
  · intro pre o
    constructor <;>
      simp [buildOptions, List.foldl_append, applyOpt, RendererOptions.ApplyTo]
  · intro target f
    simp [applyOpt]
  · intro target t
    simp [applyOpt]
  · intro opts
    refine ⟨?_, ?_⟩
    · rw [buildOptions, foldl_applyOpt_postRenderers]
      simp [defaultOptions]
    · rw [buildOptions, foldl_applyOpt_sourceSelectors]
      simp [defaultOptions]

/-! ## C9 — struct-based options overwrite every single-valued field -/

/-- C9: applying a struct-based RendererOptions value overwrites the
filters, transformers and both boolean toggles with its own fields; in
particular the Go zero value of RendererOptions, which leaves ContentHash
and SourceAnnotations unset, silently turns the default-enabled content
hashing off. -/
theorem struct_option_overwrites_all_fields :
    (∀ o target : RendererOptions,
      (o.ApplyTo target).Filters = o.Filters ∧
      (o.ApplyTo target).Transformers = o.Transformers ∧
      (o.ApplyTo target).SourceAnnotations = o.SourceAnnotations ∧
      (o.ApplyTo target).ContentHash = o.ContentHash) ∧
    defaultOptions.ContentHash = true ∧
    (buildOptions [.structOpts {}]).ContentHash = false ∧
    (buildOptions [.structOpts {}]).SourceAnnotations = false := by
  refine ⟨?_, rfl, rfl, rfl⟩
  intro o target
  exact ⟨rfl, rfl, rfl, rfl⟩

/-! ## C1 — the content digest is a pure function of canonical content -/

lemma stripReserved_setKV_reserved (l : List (String × String)) (k v : String)
    (h : reservedKey k = true) : stripReserved (setKV l k v) = stripReserved l := by
  induction l with
  | nil => simp [setKV, stripReserved, h]
  | cons kv tl ih =>
    by_cases hk : kv.1 = k
    · simp [setKV, hk, stripReserved, h]
    · simp only [setKV]
      rw [if_neg hk]
      simp only [stripReserved, List.filter_cons] at ih ⊢
      cases hr : reservedKey kv.1 <;> simp [hr, ih]

lemma canonical_annotateSource (d : Document) :
    canonicalContent (annotateSource d) = canonicalContent d := by
  cases d with
  | mk kind anns body =>
    cases anns with
    | none =>
      simp [annotateSource, canonicalContent, normalizeAnns, setKV, stripReserved,
        reservedKey, AnnotationSourceType, AnnotationContentHash]
    | some l =>
      simp only [annotateSource, canonicalContent, normalizeAnns]
      rw [stripReserved_setKV_reserved]
      simp [reservedKey]

lemma digestOf_annotateSource (d : Document) :
    digestOf (annotateSource d) = digestOf d := by
  unfold digestOf
  rw [canonical_annotateSource]

lemma lookup_setKV_self (l : List (String × String)) (k v : String) :
    (setKV l k v).lookup k = some v := by
  induction l with
  | nil => simp [setKV, List.lookup]
  | cons kv tl ih =>
    by_cases hk : kv.1 = k
    · simp [setKV, hk, List.lookup]
    · simp only [setKV]
      rw [if_neg hk]
      simp only [List.lookup]
      have : (k == kv.1) = false := by
        simp [beq_iff_eq]
        exact fun he => hk he.symm
      rw [this]
      exact ih

lemma annLookup_SetContentHash (d : Document) :
    annLookup (SetContentHash d) AnnotationContentHash = some (digestOf d) := by
  simp [SetContentHash, annLookup, lookup_setKV_self]

/-- C1: whenever content fingerprinting is enabled, the digest the
per-document step stores under the reserved key is exactly digestOf of the
original Document — a pure function of its canonical content, the same
whether provenance annotation is enabled or disabled and independent of any
other configuration; and digestOf depends on nothing but the canonical
content. -/
theorem contentHash_pure_function_of_content :
    (∀ (opts : RendererOptions) (d : Document), opts.ContentHash = true →
      annLookup (perDocStep opts d) AnnotationContentHash = some (digestOf d)) ∧
    (∀ d₁ d₂ : Document, canonicalContent d₁ = canonicalContent d₂ →
      digestOf d₁ = digestOf d₂) := by
  constructor
  · intro opts d h
    cases ha : opts.SourceAnnotations <;>
      simp [perDocStep, h, ha, annLookup_SetContentHash, digestOf_annotateSource]
  · intro d₁ d₂ h
    unfold digestOf
    rw [h]

/-- A concrete Document used by witnesses: a ConfigMap with one annotation
and a small body. -/
def docW : Document :=
  { kind := "ConfigMap"
    annotations := some [("team", "alpha")]
    body := some (.vobj (.cons "key" (.vstr "value") .nil)) }

/-- Witness for C1 at a concrete configuration (annotation enabled,
fingerprinting enabled) and a concrete Document. -/
theorem contentHash_pure_function_of_content_witness :
    ({ defaultOptions with SourceAnnotations := true }.ContentHash = true) ∧
    annLookup (perDocStep { defaultOptions with SourceAnnotations := true } docW)
        AnnotationContentHash = some (digestOf docW) :=
  ⟨rfl, contentHash_pure_function_of_content.1
    { defaultOptions with SourceAnnotations := true } docW rfl⟩

/-! ## C4 — selector gating: short circuit, skip, abort -/

lemma process_inputs_congr (opts : RendererOptions) (xs ys : List Source)
    (h : processGroups opts xs = processGroups opts ys) :
    Process { inputs := xs, opts := opts } = Process { inputs := ys, opts := opts } := by
  simp only [Process, h]

/-- C4: the selector chain short-circuits — one selector returning false
decides the chain without consulting the rest, and a selector error is the
chain's error; a group whose chain returns false contributes nothing to the
render (Process behaves as if the group were absent); and a chain error on
any group aborts the whole render with a source-selector-tagged error even
when every earlier group was already accepted (its selector chain deciding
and its per-source work succeeding) or rejected — the earlier accepted
groups' already-processed Documents are discarded, not returned. -/
theorem sourceSelectors_short_circuit :
    (∀ (src : Source) (s : SourceSelector) (rest : List SourceSelector),
      s src = .ok false → ApplySourceSelectors src (s :: rest) = .ok false) ∧
    (∀ (src : Source) (s : SourceSelector) (rest : List SourceSelector) (e : String),
      s src = .error e → ApplySourceSelectors src (s :: rest) = .error e) ∧
    (∀ (opts : RendererOptions) (pre suf : List Source) (src : Source),
      ApplySourceSelectors src opts.SourceSelectors = .ok false →
      Process { inputs := pre ++ src :: suf, opts := opts } =
        Process { inputs := pre ++ suf, opts := opts }) ∧
    (∀ (opts : RendererOptions) (pre suf : List Source) (src : Source) (e : String),
      (∀ p ∈ pre, ∃ b, ApplySourceSelectors p opts.SourceSelectors = .ok b ∧
        (b = true →
          ∃ out, ApplyPostRenderers (perSourceDocs opts p) p.PostRenderers = .ok out)) →
      ApplySourceSelectors src opts.SourceSelectors = .error e →
      Process { inputs := pre ++ src :: suf, opts := opts } =
        .error (.sourceSelectorError e)) := by
  refine ⟨?_, ?_, ?_, ?_⟩
  · intro src s rest h
    simp [ApplySourceSelectors, h]
  · intro src s rest e h
    simp [ApplySourceSelectors, h]
  · intro opts pre suf src h
    apply process_inputs_congr
    induction pre with
    | nil => simp [processGroups, h]
    | cons p pre ih =>
      simp only [List.cons_append, processGroups, List.append_eq]
      rw [ih]
  · intro opts pre suf src e hpre h
    have hgroups : ∀ pre' : List Source,
        (∀ p ∈ pre', ∃ b, ApplySourceSelectors p opts.SourceSelectors = .ok b ∧
          (b = true →
            ∃ out, ApplyPostRenderers (perSourceDocs opts p) p.PostRenderers = .ok out)) →
        processGroups opts (pre' ++ src :: suf) = .error (.sourceSelectorError e) := by
      intro pre'
      induction pre' with
      | nil =>
        intro _
        simp [processGroups, h]
      | cons p rest ih =>
        intro hp
        rcases hp p (by simp) with ⟨b, hb, hout⟩
        have ih' := ih fun q hq => hp q (by simp [hq])
        cases b with
        | false => simp [processGroups, hb, ih']
        | true =>
          rcases hout rfl with ⟨out, hpost⟩
          simp [processGroups, hb, hpost, ih']
    simp [Process, hgroups pre hpre]

/-- A selector that accepts exactly the one-document groups, used in
witnesses. -/
def selOne : SourceSelector := fun src => .ok (src.Objects.length == 1)

/-- A selector that always fails, used in witnesses. -/
def selBoom : SourceSelector := fun _ => .error "boom"

/-- A selector that accepts one-document groups and fails on any other
group, used in witnesses. -/
def selOneOrBoom : SourceSelector := fun src =>
  if src.Objects.length == 1 then .ok true else .error "boom"

/-- A concrete one-document source group. -/
def srcA : Source := { Objects := [docW] }

/-- A concrete two-document source group. -/
def srcB : Source := { Objects := [docW, docW] }

/-- Witness for C4: a false-returning selector hides its group from the
render, and a selector error on the second group aborts the render with
the source-selector tag although the first group was accepted and
processed — its Documents are discarded. -/
theorem sourceSelectors_short_circuit_witness :
    (ApplySourceSelectors srcB (selOne :: [selBoom]) = .ok false) ∧
    (Process { inputs := [srcB], opts := { defaultOptions with SourceSelectors := [selOne] } } =
      Process { inputs := [], opts := { defaultOptions with SourceSelectors := [selOne] } }) ∧
    (Process { inputs := [srcA, srcB]
               opts := { defaultOptions with SourceSelectors := [selOneOrBoom] } } =
      .error (.sourceSelectorError "boom")) :=
  ⟨sourceSelectors_short_circuit.1 srcB selOne [selBoom] rfl,
   sourceSelectors_short_circuit.2.2.1 { defaultOptions with SourceSelectors := [selOne] }
     [] [] srcB rfl,
   sourceSelectors_short_circuit.2.2.2
     { defaultOptions with SourceSelectors := [selOneOrBoom] } [srcA] [] srcB "boom"
     (by
       intro p hp
       simp only [List.mem_singleton] at hp
       subst hp
       exact ⟨true, rfl, fun _ =>
         ⟨perSourceDocs { defaultOptions with SourceSelectors := [selOneOrBoom] } srcA, rfl⟩⟩)
     rfl⟩

/-! ## C5 — construction-time validation and InvalidSource -/

/-- Validity of one Source Group: every contained Document has a body. -/
def groupValid (src : Source) : Prop := ∀ d ∈ src.Objects, d.body ≠ none

lemma firstInvalid_none_iff (docs : List Document) :
    firstInvalid docs = none ↔ ∀ d ∈ docs, d.body ≠ none := by
  induction docs with
  | nil => simp [firstInvalid]
  | cons d rest ih =>
    cases hb : d.body with
    | none => simp [firstInvalid, hb]
    | some v =>
      simp only [firstInvalid, hb, List.mem_cons]
      rw [Option.map_eq_none', ih]
      constructor
      · rintro h d' (rfl | hd)
        · simp [hb]
        · exact h d' hd
      · intro h d' hd
        exact h d' (Or.inr hd)

lemma firstInvalid_spec (docs : List Document) (j : Nat)
    (h : firstInvalid docs = some j) :
    ∃ d, docs.get? j = some d ∧ d.body = none ∧
      ∀ k d', k < j → docs.get? k = some d' → d'.body ≠ none := by
  induction docs generalizing j with
  | nil => simp [firstInvalid] at h
  | cons d rest ih =>
    cases hb : d.body with
    | none =>
      simp only [firstInvalid, hb] at h
      cases h
      exact ⟨d, rfl, hb, fun k d' hk => by omega⟩
    | some v =>
      simp only [firstInvalid, hb] at h
      rcases Option.map_eq_some'.mp h with ⟨j', hj', rfl⟩
      rcases ih j' hj' with ⟨d', hget, hbody, hearlier⟩
      refine ⟨d', hget, hbody, ?_⟩
      intro k d'' hk hget''
      cases k with
      | zero =>
        simp only [List.get?] at hget''
        cases hget''
        simp [hb]
      | succ k' =>
        exact hearlier k' d'' (by omega) hget''

lemma validateGroups_shift (inputs : List Source) (i : Nat) :
    validateGroups i inputs = (validateGroups 0 inputs).map fun p => (p.1 + i, p.2) := by
  induction inputs generalizing i with
  | nil => simp [validateGroups]
  | cons src rest ih =>
    cases hf : firstInvalid src.Objects with
    | some j => simp [validateGroups, hf]
    | none =>
      simp only [validateGroups, hf]
      rw [ih (i + 1), ih 1, Option.map_map]
      congr 1
      funext p
      simp [Function.comp]
      omega

lemma validateGroups_none_iff (inputs : List Source) (i : Nat) :
    validateGroups i inputs = none ↔ ∀ src ∈ inputs, firstInvalid src.Objects = none := by
  induction inputs generalizing i with
  | nil => simp [validateGroups]
  | cons src rest ih =>
    cases hf : firstInvalid src.Objects with
    | some j => simp [validateGroups, hf]
    | none =>
      simp only [validateGroups, hf, List.mem_cons]
      rw [ih (i + 1)]
      constructor
      · rintro h src' (rfl | hs)
        · exact hf
        · exact h src' hs
      · intro h src' hs
        exact h src' (Or.inr hs)

lemma validateGroups_zero_spec (inputs : List Source) (i j : Nat)
    (h : validateGroups 0 inputs = some (i, j)) :
    ∃ src, inputs.get? i = some src ∧ firstInvalid src.Objects = some j ∧
      ∀ k src', k < i → inputs.get? k = some src' → firstInvalid src'.Objects = none := by
  induction inputs generalizing i j with
  | nil => simp [validateGroups] at h
  | cons src rest ih =>
    cases hf : firstInvalid src.Objects with
    | some j0 =>
      simp only [validateGroups, hf] at h
      cases h
      exact ⟨src, rfl, hf, fun k src' hk => by omega⟩
    | none =>
      simp only [validateGroups, hf] at h
      rw [validateGroups_shift rest 1] at h
      rcases Option.map_eq_some'.mp h with ⟨⟨i', j'⟩, hv, heq⟩
      have hi : i = i' + 1 := by
        have := congrArg Prod.fst heq
        simp at this
        omega
      have hj : j = j' := by
        have := congrArg Prod.snd heq
        simpa using this.symm
      subst hi
      subst hj
      rcases ih i' j hv with ⟨src', hget, hfi, hearlier⟩
      refine ⟨src', hget, hfi, ?_⟩
      intro k src'' hk hget''
      cases k with
      | zero =>
        simp only [List.get?] at hget''
        cases hget''
        exact hf
      | succ k' =>
        exact hearlier k' src'' (by omega) hget''

/-- C5: construction fails with InvalidSource exactly on an empty-bodied
Document; the error's group index is the first invalid group by ascending
index and its document index the first invalid document of that group; with
every group valid, New succeeds and stores the inputs with the built
configuration (no validation is left to Process, whose definition never
validates); with some group invalid, New returns an InvalidSource error and
no renderer. -/
theorem new_invalidSource_first_index :
    (∀ (inputs : List Source) (opts : List ROption) (i j : Nat),
      New inputs opts = .error (.invalidSource i j) →
        (∃ src, inputs.get? i = some src ∧
          (∃ d, src.Objects.get? j = some d ∧ d.body = none ∧
            ∀ k d', k < j → src.Objects.get? k = some d' → d'.body ≠ none)) ∧
        (∀ k src', k < i → inputs.get? k = some src' → groupValid src')) ∧
    (∀ (inputs : List Source) (opts : List ROption),
      (∀ src ∈ inputs, groupValid src) →
        New inputs opts = .ok { inputs := inputs, opts := buildOptions opts }) ∧
    (∀ (inputs : List Source) (opts : List ROption) (src : Source),
      src ∈ inputs → ¬ groupValid src →
        ∃ i j, New inputs opts = .error (.invalidSource i j)) := by
  refine ⟨?_, ?_, ?_⟩
  · intro inputs opts i j h
    cases hv : validateGroups 0 inputs with
    | none => simp [New, hv] at h
    | some ij =>
      simp only [New, hv, Except.error.injEq, ConstructError.invalidSource.injEq] at h
      obtain ⟨hi, hj⟩ := h
      rcases validateGroups_zero_spec inputs ij.1 ij.2 (by simpa using hv) with
        ⟨src, hget, hfi, hearlier⟩
      subst hi
      subst hj
      constructor
      · exact ⟨src, hget, firstInvalid_spec src.Objects _ hfi⟩
      · intro k src' hk hget'
        exact (firstInvalid_none_iff src'.Objects).mp (hearlier k src' hk hget')
  · intro inputs opts h
    have hv : validateGroups 0 inputs = none :=
      (validateGroups_none_iff inputs 0).mpr fun src hs =>
        (firstInvalid_none_iff src.Objects).mpr (h src hs)
    simp [New, hv]
  · intro inputs opts src hmem hinv
    cases hv : validateGroups 0 inputs with
    | some ij => exact ⟨ij.1, ij.2, by simp [New, hv]⟩
    | none =>
      exact absurd ((firstInvalid_none_iff src.Objects).mp
        ((validateGroups_none_iff inputs 0).mp hv src hmem)) hinv

/-- A Document with an absent body: the invalid input state. -/
def docBad : Document := { kind := "", annotations := none, body := none }

/-- A source group containing one invalid Document. -/
def srcBad : Source := { Objects := [docBad] }

/-- Witness for C5: one invalid group fails construction, and the concrete
error names group 0, document 0. -/
theorem new_invalidSource_first_index_witness :
    (∃ i j, New [srcBad] [] = .error (.invalidSource i j)) ∧
    New [srcBad] [] = .error (.invalidSource 0 0) :=
  ⟨new_invalidSource_first_index.2.2 [srcBad] [] srcBad (by simp)
    (by
      intro h
      exact h docBad (by simp [srcBad]) rfl),
   rfl⟩

/-! ## C6 — the merged sequence is the ordered concatenation of accepted
groups -/

/-- Concatenation of the processed outputs of the accepted groups,
preserving source order: the specification shape of the merge step. -/
def gatherAccepted (b : Source → Bool) (f : Source → List Document) :
    List Source → List Document
  | [] => []
  | s :: rest => if b s then f s ++ gatherAccepted b f rest else gatherAccepted b f rest

lemma perSourceDocs_eq_map (opts : RendererOptions) (src : Source) :
    perSourceDocs opts src = src.Objects.map (perDocStep opts) := by
  cases h : opts.ContentHash <;>
    simp [perSourceDocs, perDocStep, h, List.map_map, Function.comp]

/-- C6: when every group's selector chain decides (with decision b) and
every group's per-source work succeeds (with output f), the merged sequence
handed to the renderer-level chain is exactly the concatenation, in
original source order, of f over the accepted groups — rejected groups are
entirely absent; and the per-source work is an order-preserving map of the
per-document step over the group's Documents. -/
theorem merged_sequence_concat_accepted :
    (∀ (opts : RendererOptions) (inputs : List Source)
      (b : Source → Bool) (f : Source → List Document),
      (∀ src ∈ inputs, ApplySourceSelectors src opts.SourceSelectors = .ok (b src)) →
      (∀ src ∈ inputs,
        ApplyPostRenderers (perSourceDocs opts src) src.PostRenderers = .ok (f src)) →
      processGroups opts inputs = .ok (gatherAccepted b f inputs)) ∧
    (∀ (opts : RendererOptions) (src : Source),
      perSourceDocs opts src = src.Objects.map (perDocStep opts)) := by
  constructor
  · intro opts inputs b f hsel hpost
    induction inputs with
    | nil => simp [processGroups, gatherAccepted]
    | cons src rest ih =>
      have hs := hsel src (by simp)
      have hp := hpost src (by simp)
      have ih' := ih (fun q hq => hsel q (by simp [hq])) (fun q hq => hpost q (by simp [hq]))
      cases hb : b src with
      | false =>
        rw [hb] at hs
        simp [processGroups, hs, gatherAccepted, hb, ih']
      | true =>
        rw [hb] at hs
        simp [processGroups, hs, hp, gatherAccepted, hb, ih']
  · exact perSourceDocs_eq_map

/-- Witness for C6 at two concrete groups, the first accepted and the
second rejected by a concrete selector chain. -/
theorem merged_sequence_concat_accepted_witness :
    processGroups { defaultOptions with SourceSelectors := [selOne] } [srcA, srcB] =
      .ok (gatherAccepted (fun src => src.Objects.length == 1)
        (fun src => perSourceDocs { defaultOptions with SourceSelectors := [selOne] } src)
        [srcA, srcB]) :=
  merged_sequence_concat_accepted.1 { defaultOptions with SourceSelectors := [selOne] }
    [srcA, srcB] (fun src => src.Objects.length == 1)
    (fun src => perSourceDocs { defaultOptions with SourceSelectors := [selOne] } src)
    (by
      intro src hs
      simp only [List.mem_cons, List.not_mem_nil, or_false] at hs
      rcases hs with rfl | rfl <;> rfl)
    (by
      intro src hs
      simp only [List.mem_cons, List.not_mem_nil, or_false] at hs
      rcases hs with rfl | rfl <;> rfl)

/-! ## C7 — the renderer-level chain: composition order and failure tag -/

lemma applyPostRenderers_append (objs : List Document) (xs ys : List PostRenderer) :
    ApplyPostRenderers objs (xs ++ ys) =
      (ApplyPostRenderers objs xs).bind fun m => ApplyPostRenderers m ys := by
  induction xs generalizing objs with
  | nil => simp [ApplyPostRenderers, Except.bind]
  | cons p xs ih =>
    simp only [List.cons_append, ApplyPostRenderers]
    cases p objs with
    | error e => simp [Except.bind]
    | ok out => exact ih out

/-- C7: the renderer-level chain is the filters, then the transformers,
then the post-renderers, in that fixed relative order; applying the chain
to the merged sequence decomposes into applying those segments in
sequence, each stage in order; a chain stage failing makes Process fail
with the renderer-post-render tag, and a succeeding chain's output is the
render's output. -/
theorem renderer_chain_order_and_failure :
    (∀ (fs : List Filter) (ts : List Transformer) (ps : List PostRenderer),
      BuildPostRendererChain fs ts ps = fs ++ ts ++ ps) ∧
    (∀ (objs : List Document) (xs ys : List PostRenderer),
      ApplyPostRenderers objs (xs ++ ys) =
        (ApplyPostRenderers objs xs).bind fun m => ApplyPostRenderers m ys) ∧
    (∀ (r : Renderer) (m : List Document) (e : String),
      processGroups r.opts r.inputs = .ok m →
      ApplyPostRenderers m
          (BuildPostRendererChain r.opts.Filters r.opts.Transformers r.opts.PostRenderers) =
        .error e →
      Process r = .error (.renderPostRenderError e)) ∧
    (∀ (r : Renderer) (m out : List Document),
      processGroups r.opts r.inputs = .ok m →
      ApplyPostRenderers m
          (BuildPostRendererChain r.opts.Filters r.opts.Transformers r.opts.PostRenderers) =
        .ok out →
      Process r = .ok out) := by
  refine ⟨fun fs ts ps => rfl, applyPostRenderers_append, ?_, ?_⟩
  · intro r m e h1 h2
    simp [Process, h1, h2]
  · intro r m out h1 h2
    simp [Process, h1, h2]

/-- A filter that always fails, used in witnesses. -/
def fBoom : Filter := fun _ => .error "bad-filter"

/-- A concrete renderer whose only renderer-level stage is a failing
filter. -/
def rChainFail : Renderer :=
  { inputs := [srcA]
    opts := { Filters := [fBoom], Transformers := [], ContentHash := false } }

/-- Witness for C7: a failing filter stage aborts the render with the
renderer-post-render tag. -/
theorem renderer_chain_order_and_failure_witness :
    Process rChainFail = .error (.renderPostRenderError "bad-filter") :=
  renderer_chain_order_and_failure.2.2.1 rChainFail [docW] "bad-filter" rfl rfl

/-! ## C8 — the empty render -/

lemma perSourceDocs_nil_objects (opts : RendererOptions) (src : Source)
    (h : src.Objects = []) : perSourceDocs opts src = [] := by
  cases hc : opts.ContentHash <;> simp [perSourceDocs, h, hc]

/-- C8 (counterexample): the claim promises an empty, error-free result on
an empty input for every pipeline instance, but a configured renderer-level
stage still runs on the empty merged sequence and may fail: with zero
Source Groups and one always-failing post-renderer, Process returns an
error. -/
theorem process_empty_input_can_fail :
    (Renderer.mk [] (buildOptions [.withPostRenderer fun _ => .error "boom"])).inputs = [] ∧
    Process (Renderer.mk [] (buildOptions [.withPostRenderer fun _ => .error "boom"])) =
      .error (.renderPostRenderError "boom") :=
  ⟨rfl, rfl⟩

/-- C8 (amended): Process returns the empty, non-error result whenever
every present group is either rejected by its selector chain or accepted
with zero Documents and a per-source chain that maps the empty sequence to
an empty, error-free result, and the renderer-level chain does the same on
the empty sequence — in particular always when no stages are configured.
(Go's distinction between a nil and an allocated empty slice has no
counterpart here; the source allocates, so the result is the non-nil empty
slice.) -/
theorem process_empty_input_ok (r : Renderer)
    (hgroups : ∀ src ∈ r.inputs,
      ApplySourceSelectors src r.opts.SourceSelectors = .ok false ∨
      (ApplySourceSelectors src r.opts.SourceSelectors = .ok true ∧ src.Objects = [] ∧
        ApplyPostRenderers [] src.PostRenderers = .ok []))
    (hchain : ApplyPostRenderers []
        (BuildPostRendererChain r.opts.Filters r.opts.Transformers r.opts.PostRenderers) =
      .ok []) :
    Process r = .ok [] := by
  have hmerged : ∀ inputs : List Source,
      (∀ src ∈ inputs,
        ApplySourceSelectors src r.opts.SourceSelectors = .ok false ∨
        (ApplySourceSelectors src r.opts.SourceSelectors = .ok true ∧ src.Objects = [] ∧
          ApplyPostRenderers [] src.PostRenderers = .ok [])) →
      processGroups r.opts inputs = .ok [] := by
    intro inputs h
    induction inputs with
    | nil => rfl
    | cons src rest ih =>
      have ih' := ih fun q hq => h q (by simp [hq])
      rcases h src (by simp) with hrej | ⟨hacc, hobj, hpr⟩
      · simp [processGroups, hrej, ih']
      · simp [processGroups, hacc, perSourceDocs_nil_objects r.opts src hobj, hpr, ih']
  simp [Process, hmerged r.inputs hgroups, hchain]

/-- Witness for C8 at a concrete instance: one group rejected by a
selector, default (empty) chains — the render is empty and error-free. -/
theorem process_empty_input_ok_witness :
    Process { inputs := [srcB], opts := { defaultOptions with SourceSelectors := [selOne] } } =
      .ok [] :=
  process_empty_input_ok
    { inputs := [srcB], opts := { defaultOptions with SourceSelectors := [selOne] } }
    (by
      intro src hs
      simp only [List.mem_cons, List.not_mem_nil, or_false] at hs
      subst hs
      exact Or.inl rfl)
    rfl

/-! ## C10 — the two Process variants agree without selectors and
post-renderers -/

/-- Agreement of two render results: equal outputs on success, joint
failure otherwise (the two variants tag and word their errors
differently). -/
def resultsAgree : Except ProcessError (List Document) → Except ProcessError (List Document) → Prop
  | .ok xs, .ok ys => xs = ys
  | .error _, .error _ => True
  | _, _ => False

lemma processGroups_no_gating (opts : RendererOptions) (inputs : List Source)
    (hsel : opts.SourceSelectors = [])
    (hsrc : ∀ src ∈ inputs, src.PostRenderers = []) :
    processGroups opts inputs = .ok ((inputs.map fun src => perSourceDocs opts src).flatten) := by
  induction inputs with
  | nil => rfl
  | cons src rest ih =>
    have ih' := ih fun q hq => hsrc q (by simp [hq])
    have hpr := hsrc src (by simp)
    simp [processGroups, hsel, ApplySourceSelectors, hpr, ApplyPostRenderers, ih']

lemma perSourceDocs_flatten (opts : RendererOptions) (inputs : List Source) :
    (inputs.map fun src => perSourceDocs opts src).flatten =
      (let a := (inputs.map fun src =>
          src.Objects.map fun obj =>
            if opts.SourceAnnotations then annotateSource obj else obj).flatten
        if opts.ContentHash then a.map SetContentHash else a) := by
  cases hc : opts.ContentHash with
  | false => simp [perSourceDocs, hc]
  | true =>
    simp only [perSourceDocs, hc, if_true, List.map_flatten, List.map_map]
    refine congrArg List.flatten (List.map_congr_left ?_)
    intro src _
    simp [Function.comp, List.map_map]

/-- C10: with no source selectors, no renderer-level post-renderers and no
per-source post-renderers, the richer Process and the superseded simpler
Process agree — equal outputs on success and joint failure — for every
stored input and every configuration of filters and transformers. -/
theorem process_variants_agree (r : Renderer)
    (hsel : r.opts.SourceSelectors = [])
    (hpr : r.opts.PostRenderers = [])
    (hsrc : ∀ src ∈ r.inputs, src.PostRenderers = []) :
    resultsAgree (Process r) (ProcessOld r) := by
  have hmerged := processGroups_no_gating r.opts r.inputs hsel hsrc
  rw [perSourceDocs_flatten] at hmerged
  simp only [Process, ProcessOld, hmerged, BuildPostRendererChain, hpr, List.append_nil,
    ApplyFT]
  cases ApplyPostRenderers
      (let a := (r.inputs.map fun src =>
          src.Objects.map fun obj =>
            if r.opts.SourceAnnotations then annotateSource obj else obj).flatten
        if r.opts.ContentHash then a.map SetContentHash else a)
      (r.opts.Filters ++ r.opts.Transformers) with
  | error e => simp [resultsAgree]
  | ok out => simp [resultsAgree]

/-- Witness for C10 at a concrete renderer: two one-document groups, an
identity filter, annotations and hashing enabled. -/
theorem process_variants_agree_witness :
    resultsAgree
      (Process { inputs := [srcA, srcA]
                 opts := { defaultOptions with Filters := [fId], SourceAnnotations := true } })
      (ProcessOld { inputs := [srcA, srcA]
                    opts := { defaultOptions with Filters := [fId], SourceAnnotations := true } }) :=
  process_variants_agree
    { inputs := [srcA, srcA]
      opts := { defaultOptions with Filters := [fId], SourceAnnotations := true } }
    rfl rfl
    (by
      intro src hs
      simp only [List.mem_cons, List.not_mem_nil, or_false] at hs
      rcases hs with rfl | rfl <;> rfl)

/-! ## C2 — copy isolation and construction-time aliasing -/

/-- C2 (amended): a Process call leaves the store of caller-held documents
— the pipeline's stored inputs — exactly as it found it, and re-invoking
Process on the unchanged store repeats the same result; output Documents
are values, sharing nothing mutable with the store. -/
theorem process_preserves_store (store : Store) (r : RendererRef) :
    (ProcessRef store r).1 = store ∧
    (ProcessRef (ProcessRef store r).1 r).2 = (ProcessRef store r).2 :=
  ⟨rfl, rfl⟩

/-- The caller's document after the post-construction mutation of the
copy-isolation scenario: the body's key now reads modified. -/
def docMut : Document :=
  { kind := "ConfigMap"
    annotations := some [("team", "alpha")]
    body := some (.vobj (.cons "key" (.vstr "modified") .nil)) }

/-- The renderer of the copy-isolation scenario: it was handed the
document at store address 0 and no options beyond disabling hashing. -/
def rIso : RendererRef :=
  { inputs := [{ objects := [0] }]
    opts := { defaultOptions with ContentHash := false } }

/-- C2 (counterexample): construction does not deep-copy — the stored
group aliases the caller's document.  With docW at address 0, Process
returns docW; after the caller mutates the document at address 0 to
docMut, a subsequent Process call returns docMut: the mutation altered the
corresponding output Document, contradicting the claim (the two outputs
differ in their body). -/
theorem process_sees_post_construction_mutation :
    (ProcessRef [docW] rIso).2 = .ok [docW] ∧
    (ProcessRef ([docW].set 0 docMut) rIso).2 = .ok [docMut] ∧
    docW.body ≠ docMut.body :=
  ⟨rfl, rfl, by simp [docW, docMut]⟩

end Mem
